import Mathlib

/-
Verification of the access-control and cache-invalidation layer of the
SoftDesk-style issue-tracking backend (Django/DRF sources under `support/`).

The embedding models:
 - the domain entities (Project, Contributor, Issue, Comment) as records over
   numeric identifiers, with the relational store as plain lists;
 - the process-wide key-value cache as an association list from string keys to
   values (integer version counters or serialized list payloads), each entry
   carrying the time-to-live passed to `cache.set`;
 - python f-string interpolation of integers via an explicit decimal renderer
   `natStr` (proved injective, which underpins key-distinctness arguments);
 - the signal handlers of `signals.py`, the `CacheListMixin` of `mixins.py`,
   the permission predicates of `permissions.py`, and the serializer logic of
   `serializers.py`.
-/

namespace SoftDesk

/-! ### Decimal rendering of integers (python `str(n)` inside f-strings) -/

/-- Little-endian decimal digits of `n`, with explicit structural fuel
(`fuel ≥ n` suffices, and callers pass `fuel = n`). `0` yields `[]`. -/
def natToRevDigits : Nat → Nat → List Nat
  | 0, _ => []
  | _ + 1, 0 => []
  | fuel + 1, n + 1 => ((n + 1) % 10) :: natToRevDigits fuel ((n + 1) / 10)

/-- Decimal rendering of a natural number, as python's `str()` renders a
non-negative `int`. -/
def natStr (n : Nat) : String :=
  if n = 0 then "0" else String.mk (((natToRevDigits n n).reverse).map Nat.digitChar)

/-- Value of a little-endian digit list. -/
def digitsVal (l : List Nat) : Nat := l.foldr (fun d acc => d + 10 * acc) 0

/-! ### The shared key-value cache (`django.core.cache`) -/

/-- A value stored in the cache: an integer (version counters) or a serialized
list-response payload (`response.data`, abstracted as a list of item ids). -/
inductive CacheVal where
  | num (n : Nat)
  | data (d : List Nat)
deriving DecidableEq

/-- One cache entry: key, value, and the `timeout` passed to `cache.set`
(`none` models python `None`, i.e. no expiry; `some s` a timeout of `s`
seconds). -/
structure CacheEntry where
  key : String
  val : CacheVal
  ttl : Option Nat
deriving DecidableEq

/-- The cache, newest entry first; a newer entry for a key shadows older
ones. -/
abbrev Cache := List CacheEntry

/-- `cache.get(k)` -/
def cacheGet (c : Cache) (k : String) : Option CacheVal :=
  (c.find? (fun e => e.key == k)).map (·.val)

/-- `cache.set(k, v, t)` -/
def cacheSet (c : Cache) (k : String) (v : CacheVal) (t : Option Nat) : Cache :=
  ⟨k, v, t⟩ :: c

/-- `cache.get(k)` restricted to integer values. -/
def cacheGetNat (c : Cache) (k : String) : Option Nat :=
  match cacheGet c k with
  | some (.num n) => some n
  | _ => none

/-! ### Domain model (`models.py`), as numeric-identifier records -/

/-- A `Project` row: its primary key and its author's user id.  The remaining
columns (title, description, type, created_time) play no role in the
access-control and caching layer. -/
structure Project where
  id : Nat
  author : Nat
deriving DecidableEq

/-- A `Contributor` row: primary key, user id, project id. -/
structure Contributor where
  id : Nat
  user : Nat
  project : Nat
deriving DecidableEq

/-- An `Issue` row: primary key, project id, author user id. -/
structure Issue where
  id : Nat
  project : Nat
  author : Nat
deriving DecidableEq

/-- A `Comment` row: primary key, issue id, author user id. -/
structure Comment where
  id : Nat
  issue : Nat
  author : Nat
deriving DecidableEq

/-- The relational store, one list per table. -/
structure DB where
  projects : List Project
  contributors : List Contributor
  issues : List Issue
  comments : List Comment
deriving DecidableEq

/-- `Project.objects.get(id=pid)` (as an `Option`). -/
def findProject (db : DB) (pid : Nat) : Option Project :=
  db.projects.find? (fun p => p.id == pid)

/-- `Issue.objects.get(id=iid)` (as an `Option`). -/
def findIssue (db : DB) (iid : Nat) : Option Issue :=
  db.issues.find? (fun i => i.id == iid)

/-- `Contributor.objects.get(pk=cid)` (as an `Option`). -/
def findContributor (db : DB) (cid : Nat) : Option Contributor :=
  db.contributors.find? (fun c => c.id == cid)

/-- A saved or deleted model instance, as received by the signal handler and
by object-level permission checks. -/
inductive ModelInstance where
  | ofProject (p : Project)
  | ofContributor (c : Contributor)
  | ofIssue (i : Issue)
  | ofComment (cm : Comment)
deriving DecidableEq

/-! ### Cache-invalidation signals (`signals.py`) -/

/-- The project's author followed by the users of all its `Contributor` rows
(`[instance.author.id] + list(instance.contributors.values_list('user_id'))`).
May contain duplicates: the author is not removed from the contributor list. -/
def projectMemberIds (db : DB) (p : Project) : List Nat :=
  p.author :: (db.contributors.filter (fun c => c.project == p.id)).map (·.user)

/-- `get_related_users(instance)`: the users affected by a change to the
instance, reached through the owning project (directly, via `.project`, or via
`.issue.project`).  A dangling foreign key — impossible under referential
integrity, where python would simply dereference the in-memory relation —
yields `[]`. -/
def get_related_users (db : DB) : ModelInstance → List Nat
  | .ofProject p => projectMemberIds db p
  | .ofContributor c => (findProject db c.project).elim [] (projectMemberIds db)
  | .ofIssue i => (findProject db i.project).elim [] (projectMemberIds db)
  | .ofComment cm =>
      ((findIssue db cm.issue).bind (fun i => findProject db i.project)).elim []
        (projectMemberIds db)

/-- The version-counter key `f"{key_pre}_version_user_{user_id}"`. -/
def version_key (keyPre : String) (uid : Nat) : String :=
  keyPre ++ "_version_user_" ++ natStr uid

/-- `increment_version(key_prefix, user_id)`: read the counter (`or 1`
defaults a missing — or falsy `0` — value to 1; a non-integer value under a
version key never occurs in reachable states), store the successor with no
expiry, and return it. -/
def increment_version (c : Cache) (keyPre : String) (uid : Nat) : Cache × Nat :=
  let vk := version_key keyPre uid
  let version : Nat :=
    match cacheGet c vk with
    | some (.num n) => if n = 0 then 1 else n
    | _ => 1
  (cacheSet c vk (.num (version + 1)) none, version + 1)

/-- The four per-endpoint key heads iterated by `auto_invalidate_cache`. -/
def listEndpoints : List String :=
  ["projects_list", "contributors_list", "issues_list", "comments_list"]

/-- `auto_invalidate_cache(sender, instance)`: for each related user, for each
of the four list endpoints, increment that user's version counter. -/
def auto_invalidate_cache (db : DB) (c : Cache) (inst : ModelInstance) : Cache :=
  (get_related_users db inst).foldl
    (fun acc uid =>
      listEndpoints.foldl (fun acc2 keyPre => (increment_version acc2 keyPre uid).1) acc)
    c

/-- The sequence of version-counter keys touched by `auto_invalidate_cache`,
in execution order (outer loop over users, inner loop over endpoints). -/
def invalidationKeys (db : DB) (inst : ModelInstance) : List String :=
  (get_related_users db inst).flatMap (fun uid => listEndpoints.map (fun keyPre => version_key keyPre uid))

/-- One version-counter increment at an explicit key (the body of
`increment_version`, with the key already built). -/
def incrKey (c : Cache) (k : String) : Cache :=
  let version : Nat :=
    match cacheGet c k with
    | some (.num n) => if n = 0 then 1 else n
    | _ => 1
  cacheSet c k (.num (version + 1)) none

/-! ### List caching (`mixins.py`, `CacheListMixin`) -/

/-- The view configuration relevant to the mixin: its `cache_key` class
attribute (`none` when left at the default). -/
structure ListView where
  cache_key : Option String

/-- An inbound list request: the authenticated actor (`none` = anonymous) and
the raw `page` query parameter. -/
structure ListRequest where
  user : Option Nat
  page : Option String
deriving DecidableEq

/-- `get_cache_version(request)`: read the per-user, per-endpoint version;
on a missing or falsy value, store and return `1`; unauthenticated requests
(or an unset `cache_key`) short-circuit to `1` without touching the cache.
A non-integer value under the version key never occurs in reachable states
and is treated as falsy. -/
def get_cache_version (view : ListView) (c : Cache) (req : ListRequest) : Cache × Nat :=
  match view.cache_key, req.user with
  | some ck, some uid =>
    let vk := ck ++ "_version_user_" ++ natStr uid
    match cacheGetNat c vk with
    | some n => if n = 0 then (cacheSet c vk (.num 1) none, 1) else (c, n)
    | none => (cacheSet c vk (.num 1) none, 1)
  | _, _ => (c, 1)

/-- The list-page cache key
`f"{cache_key}_user_{user_pk}_page_{page}_v{version}"`. -/
def list_cache_key (ck : String) (uid : Nat) (page : String) (v : Nat) : String :=
  ck ++ "_user_" ++ natStr uid ++ "_page_" ++ page ++ "_v" ++ natStr v

/-- `get_cache_key(request)`: `none` for anonymous requests or an unset
`cache_key`; otherwise the versioned page key (defaulting the page parameter
to `"1"`), together with the cache as possibly touched by the version read. -/
def get_cache_key (view : ListView) (c : Cache) (req : ListRequest) :
    Cache × Option String :=
  match view.cache_key, req.user with
  | some ck, some uid =>
    let page := req.page.getD "1"
    let r := get_cache_version view c req
    (r.1, some (list_cache_key ck uid page r.2))
  | _, _ => (c, none)

/-- `CacheListMixin.list(request)`: bypass for an unbuildable key; on a hit
return the cached value verbatim; on a miss run the live query, store its
payload for 300 seconds, and return it.  `live` abstracts
`super().list(...).data`, the serialized live query result. -/
def listAction (live : DB → ListRequest → List Nat) (view : ListView) (db : DB)
    (c : Cache) (req : ListRequest) : Cache × CacheVal :=
  let r := get_cache_key view c req
  match r.2 with
  | none => (r.1, .data (live db req))
  | some k =>
    match cacheGet r.1 k with
    | some cached => (r.1, cached)
    | none =>
      let d := live db req
      (cacheSet r.1 k (.data d) (some 300), .data d)

/-! ### Permission predicates (`permissions.py`) -/

/-- DRF's `SAFE_METHODS`. -/
def SAFE_METHODS : List String := ["GET", "HEAD", "OPTIONS"]

/-- The request data consulted by the permission predicates: HTTP method,
authenticated actor (`none` = anonymous), and the `project` / `issue` fields
of the request body. -/
structure PermRequest where
  method : String
  user : Option Nat
  data_project : Option Nat
  data_issue : Option Nat
deriving DecidableEq

/-- The view context consulted by the permission predicates: the action name,
the `pk` and `project_pk` path parameters, and the object `view.get_object()`
would return (for object-scoped actions). -/
structure ViewCtx where
  action : String
  kwargs_pk : Option Nat
  kwargs_project_pk : Option Nat
  obj : Option ModelInstance
deriving DecidableEq

/-- Python truthiness of an identifier read from the body or the path:
absent and `0` are falsy. -/
def truthyId : Option Nat → Bool
  | some n => n != 0
  | none => false

/-- Python `a or b` over identifier values. -/
def pyOrId (a b : Option Nat) : Option Nat :=
  if truthyId a then a else b

/-- `request.user and request.user.is_authenticated`. -/
def isAuthenticated (req : PermRequest) : Bool :=
  req.user.isSome

/-- `IsSelfOrCreateOnly.has_permission`. -/
def isSelfOrCreateOnly_has_permission (req : PermRequest) (view : ViewCtx) : Bool :=
  if view.action == "create" then true else isAuthenticated req

/-- `IsSelfOrCreateOnly.has_object_permission`: `obj == request.user`, model
equality by primary key. -/
def isSelfOrCreateOnly_has_object_permission (req : PermRequest) (objUserId : Nat) : Bool :=
  some objUserId == req.user

/-- The effective `UserViewSet` policy: `permission_classes` is
`[IsAuthenticated]` only, whose object-level check is the `BasePermission`
default `True`; an action on a User object is therefore allowed exactly when
the actor is authenticated, whatever the target. -/
def userViewSet_object_action_allowed (req : PermRequest) (objUserId : Nat) : Bool :=
  isAuthenticated req && true

/-- `IsProjectAuthor.has_permission`. -/
def isProjectAuthor_has_permission (db : DB) (req : PermRequest) (view : ViewCtx) : Bool :=
  if view.action == "list" || view.action == "retrieve" then
    isAuthenticated req
  else if view.action == "destroy" && view.kwargs_pk.isSome then
    match findContributor db (view.kwargs_pk.getD 0) with
    | none => false
    | some c =>
      match findProject db c.project with
      | some p => some p.author == req.user
      | none => false
  else
    let pid := pyOrId req.data_project (pyOrId view.kwargs_project_pk view.kwargs_pk)
    if truthyId pid then
      db.projects.any (fun p => some p.id == pid && some p.author == req.user)
    else false

/-- The membership query of `IsContributor.has_permission`:
`Contributor.objects.filter(Q(project_id=pid) & (Q(user=u) | Q(project__author=u))).exists()`. -/
def contributorOrAuthorExists (db : DB) (pid : Option Nat) (user : Option Nat) : Bool :=
  db.contributors.any (fun c =>
    some c.project == pid &&
    (some c.user == user ||
      (match findProject db c.project with
       | some p => some p.author == user
       | none => false)))

/-- Re-derive the owning project from an object's concrete type
(`IsContributor._get_project_from_obj`). -/
def get_project_from_obj (db : DB) : ModelInstance → Option Project
  | .ofProject p => some p
  | .ofIssue i => findProject db i.project
  | .ofContributor c => findProject db c.project
  | .ofComment cm => (findIssue db cm.issue).bind (fun i => findProject db i.project)

/-- `IsContributor.has_permission`.  For `partial_update`/`destroy` the
object comes from `view.get_object()`; a request routed to those actions
always carries one, so the `none` branch is unreachable and denies. -/
def isContributor_has_permission (db : DB) (req : PermRequest) (view : ViewCtx) : Bool :=
  if SAFE_METHODS.contains req.method then
    isAuthenticated req
  else if view.action == "create" then
    if truthyId req.data_project then
      contributorOrAuthorExists db req.data_project req.user
    else if truthyId req.data_issue then
      match findIssue db (req.data_issue.getD 0) with
      | some i => contributorOrAuthorExists db (some i.project) req.user
      | none => false
    else false
  else if view.action == "partial_update" || view.action == "destroy" then
    match view.obj with
    | some o =>
      match get_project_from_obj db o with
      | some p => contributorOrAuthorExists db (some p.id) req.user
      | none => false
    | none => false
  else false

/-- `IsContributor.has_object_permission`: non-safe methods require the
re-derived project's author (`return project and project.author == request.user`,
falsy `None` denying); safe methods require a `Contributor` row for the actor
and that project (a `None` project matches no row, the FK being
non-nullable). -/
def isContributor_has_object_permission (db : DB) (req : PermRequest)
    (obj : ModelInstance) : Bool :=
  let project := get_project_from_obj db obj
  if !(SAFE_METHODS.contains req.method) then
    match project with
    | some p => some p.author == req.user
    | none => false
  else
    match project with
    | some p => db.contributors.any (fun c => some c.user == req.user && c.project == p.id)
    | none => false

/-- `IsResourceAuthorOrReadOnly.has_object_permission` (Issue and Comment
share the shape: an author field compared by identifier). -/
def isResourceAuthorOrReadOnly_has_object_permission (req : PermRequest)
    (objAuthor : Nat) : Bool :=
  if SAFE_METHODS.contains req.method then true
  else some objAuthor == req.user

/-! ### Serializers (`serializers.py`) -/

/-- `ProjectSerializer.create(validated_data)` on the authorized path: the
author is forced to `request.user`, the project row is inserted, and a
`Contributor` row with `user=project.author, project=project` is created
synchronously.  Fresh primary keys are supplied by the store. -/
def projectSerializer_create (db : DB) (reqUser : Nat)
    (newProjectId newContributorId : Nat) : DB × Project :=
  let p : Project := { id := newProjectId, author := reqUser }
  let db1 : DB := { db with projects := db.projects ++ [p] }
  let contrib : Contributor := { id := newContributorId, user := p.author, project := p.id }
  ({ db1 with contributors := db1.contributors ++ [contrib] }, p)

/-- A `User` row as the serializer sees it (the stored password is the hash,
but any string works for the flow argument). -/
structure UserRec where
  id : Nat
  username : String
  email : String
  age : Option Nat
  can_be_contacted : Bool
  can_data_be_shared : Bool
  password : String
deriving DecidableEq

/-- A serialized JSON field value. -/
inductive JVal where
  | jnum (n : Nat)
  | jstr (s : String)
  | jbool (b : Bool)
  | jnull
deriving DecidableEq

/-- `super().to_representation(instance)` for `UserSerializer`: one entry per
name in `Meta.fields`, in order.  The misplaced `extra_kwargs` (a class
attribute outside `Meta`) leaves `password` readable, so it appears here. -/
def userBaseRepresentation (u : UserRec) : List (String × JVal) :=
  [("id", .jnum u.id),
   ("username", .jstr u.username),
   ("email", .jstr u.email),
   ("age", match u.age with | some a => .jnum a | none => .jnull),
   ("can_be_contacted", .jbool u.can_be_contacted),
   ("can_data_be_shared", .jbool u.can_data_be_shared),
   ("password", .jstr u.password)]

/-- `UserSerializer.to_representation`: the base representation with
`rep.pop("password", None)` applied. -/
def userToRepresentation (u : UserRec) : List (String × JVal) :=
  (userBaseRepresentation u).eraseP (fun kv => kv.1 == "password")

/-! ### Interleaved executions of `increment_version` (shared cache, no lock) -/

/-- The per-handler control state of one `increment_version(key_pre, uid)`
call, split at its two cache operations: before the `cache.get`, between the
`get` and the `cache.set` (holding the value read, after the `or 1`
defaulting), and finished. -/
inductive IncTask where
  | ready
  | got (version : Nat)
  | done
deriving DecidableEq

/-- One scheduler step of a handler running `increment_version` on key `k`:
`ready` performs the read, `got v` performs the write of `v + 1`. -/
def incStep (k : String) (c : Cache) : IncTask → Cache × IncTask
  | .ready =>
    let version : Nat :=
      match cacheGet c k with
      | some (.num n) => if n = 0 then 1 else n
      | _ => 1
    (c, .got version)
  | .got v => (cacheSet c k (.num (v + 1)) none, .done)
  | .done => (c, .done)

/-- Run two concurrent `increment_version` calls on the same key under an
explicit schedule (`false` = step the first handler, `true` = the second). -/
def runTwo (k : String) : List Bool → Cache → IncTask → IncTask → Cache
  | [], c, _, _ => c
  | s :: rest, c, t1, t2 =>
    if s then
      let r := incStep k c t2
      runTwo k rest r.1 t1 r.2
    else
      let r := incStep k c t1
      runTwo k rest r.1 r.2 t2

/-! ### Concrete fixtures used by witnesses -/

/-- A live query stub: the serialized result of `super().list(...)`. -/
def liveW : DB → ListRequest → List Nat := fun _ _ => [1, 2, 3]

/-- A view whose `cache_key` is the projects list endpoint. -/
def viewW : ListView := ⟨some "projects_list"⟩

/-- An authenticated request by user 7 with no explicit page parameter. -/
def reqW : ListRequest := ⟨some 7, none⟩

/-- A store with one project (author 7), its two contributors (7 and 8), and
one issue by user 8. -/
def dbW : DB := ⟨[⟨1, 7⟩], [⟨1, 7, 1⟩, ⟨2, 8, 1⟩], [⟨5, 1, 8⟩], []⟩

/-- A cache holding user 7's projects-list version counter at 1. -/
def cW : Cache := [⟨version_key "projects_list" 7, .num 1, none⟩]

/-! ### Supporting lemmas -/

theorem digitsVal_natToRevDigits :
    ∀ (fuel n : Nat), n ≤ fuel → digitsVal (natToRevDigits fuel n) = n := by
  intro fuel
  induction fuel with
  | zero =>
    intro n hn
    interval_cases n
    simp [natToRevDigits, digitsVal]
  | succ f ih =>
    intro n hn
    match n with
    | 0 => simp [natToRevDigits, digitsVal]
    | m + 1 =>
      have hdiv : (m + 1) / 10 ≤ f := by
        have h1 : (m + 1) / 10 < m + 1 := Nat.div_lt_self (Nat.succ_pos m) (by omega)
        omega
      have : digitsVal (natToRevDigits f ((m + 1) / 10)) = (m + 1) / 10 := ih _ hdiv
      simp only [natToRevDigits, digitsVal, List.foldr_cons]
      have : digitsVal (natToRevDigits f ((m + 1) / 10)) = (m + 1) / 10 := this
      simp only [digitsVal] at this
      rw [this]
      omega

theorem natToRevDigits_lt_ten :
    ∀ (fuel n : Nat), ∀ d ∈ natToRevDigits fuel n, d < 10 := by
  intro fuel
  induction fuel with
  | zero => intro n d hd; simp [natToRevDigits] at hd
  | succ f ih =>
    intro n d hd
    match n with
    | 0 => simp [natToRevDigits] at hd
    | m + 1 =>
      simp only [natToRevDigits, List.mem_cons] at hd
      rcases hd with h | h
      · subst h; exact Nat.mod_lt _ (by omega)
      · exact ih _ _ h

theorem digitChar_inj_below_ten :
    ∀ d1 < 10, ∀ d2 < 10, Nat.digitChar d1 = Nat.digitChar d2 → d1 = d2 := by
  decide

theorem map_digitChar_inj :
    ∀ (l1 l2 : List Nat), (∀ d ∈ l1, d < 10) → (∀ d ∈ l2, d < 10) →
      l1.map Nat.digitChar = l2.map Nat.digitChar → l1 = l2 := by
  intro l1
  induction l1 with
  | nil => intro l2 _ _ h; cases l2 <;> simp_all
  | cons a t ih =>
    intro l2 h1 h2 h
    cases l2 with
    | nil => simp at h
    | cons b t2 =>
      simp only [List.map_cons, List.cons.injEq] at h
      have ha : a < 10 := h1 a (List.mem_cons_self a t)
      have hb : b < 10 := h2 b (List.mem_cons_self b t2)
      have hab : a = b := digitChar_inj_below_ten a ha b hb h.1
      have ht : t = t2 :=
        ih t2 (fun d hd => h1 d (List.mem_cons_of_mem a hd))
          (fun d hd => h2 d (List.mem_cons_of_mem b hd)) h.2
      rw [hab, ht]

theorem natStr_injective : ∀ {m n : Nat}, natStr m = natStr n → m = n := by
  intro m n h
  by_cases hm : m = 0 <;> by_cases hn : n = 0
  · omega
  · exfalso
    simp only [natStr, hm, hn, if_true, if_false, if_pos, if_neg] at h
    have hdata : ("0" : String).data =
        (((natToRevDigits n n).reverse).map Nat.digitChar) := by
      rw [h]
    match n, hn with
    | k + 1, _ =>
      have hd : natToRevDigits (k + 1) (k + 1) =
          ((k + 1) % 10) :: natToRevDigits k ((k + 1) / 10) := rfl
      have hval := digitsVal_natToRevDigits (k + 1) (k + 1) (Nat.le_refl _)
      -- "0".data = ['0'], so the digit list must be the single digit [0],
      -- whose value is 0 ≠ k + 1
      have h0 : ("0" : String).data = ['0'] := rfl
      rw [h0] at hdata
      have hlen : (1 : Nat) = ((natToRevDigits (k+1) (k+1)).reverse).length := by
        have := congrArg List.length hdata
        simpa using this
      rcases List.length_eq_one.mp hlen.symm with ⟨d, hdone⟩
      have hdl : natToRevDigits (k+1) (k+1) = [d] := by
        have := congrArg List.reverse hdone
        simpa using this
      have hdchar : Nat.digitChar d = '0' := by
        rw [hdone] at hdata
        simpa using hdata.symm
      have hdlt : d < 10 := natToRevDigits_lt_ten _ _ d (by rw [hdl]; exact List.mem_singleton.mpr rfl)
      have hd0 : d = 0 := digitChar_inj_below_ten d hdlt 0 (by omega) (by simpa using hdchar)
      rw [hdl, hd0] at hval
      simp [digitsVal] at hval
  · exfalso
    simp only [natStr, hm, hn, if_true, if_false, if_pos, if_neg] at h
    have hdata : (((natToRevDigits m m).reverse).map Nat.digitChar) =
        ("0" : String).data := by
      rw [← h]
    match m, hm with
    | k + 1, _ =>
      have hval := digitsVal_natToRevDigits (k + 1) (k + 1) (Nat.le_refl _)
      have h0 : ("0" : String).data = ['0'] := rfl
      rw [h0] at hdata
      have hlen : ((natToRevDigits (k+1) (k+1)).reverse).length = (1 : Nat) := by
        have := congrArg List.length hdata
        simpa using this
      rcases List.length_eq_one.mp hlen with ⟨d, hdone⟩
      have hdl : natToRevDigits (k+1) (k+1) = [d] := by
        have := congrArg List.reverse hdone
        simpa using this
      have hdchar : Nat.digitChar d = '0' := by
        rw [hdone] at hdata
        simpa using hdata
      have hdlt : d < 10 := natToRevDigits_lt_ten _ _ d (by rw [hdl]; exact List.mem_singleton.mpr rfl)
      have hd0 : d = 0 := digitChar_inj_below_ten d hdlt 0 (by omega) (by simpa using hdchar)
      rw [hdl, hd0] at hval
      simp [digitsVal] at hval
  · simp only [natStr, hm, hn, if_neg] at h
    have hdata := congrArg String.data h
    simp only [String.data] at hdata
    have hmap : ((natToRevDigits m m).reverse).map Nat.digitChar =
        ((natToRevDigits n n).reverse).map Nat.digitChar := hdata
    have hrev : (natToRevDigits m m).reverse = (natToRevDigits n n).reverse :=
      map_digitChar_inj _ _
        (fun d hd => natToRevDigits_lt_ten _ _ d (List.mem_reverse.mp hd))
        (fun d hd => natToRevDigits_lt_ten _ _ d (List.mem_reverse.mp hd)) hmap
    have hdl : natToRevDigits m m = natToRevDigits n n := by
      have := congrArg List.reverse hrev
      simpa using this
    have hm' := digitsVal_natToRevDigits m m (Nat.le_refl _)
    have hn' := digitsVal_natToRevDigits n n (Nat.le_refl _)
    rw [hdl] at hm'
    omega

theorem cacheGet_set_same (c : Cache) (k : String) (v : CacheVal) (t : Option Nat) :
    cacheGet (cacheSet c k v t) k = some v := by
  simp [cacheGet, cacheSet, List.find?]

theorem cacheGet_set_other (c : Cache) (k k' : String) (v : CacheVal) (t : Option Nat)
    (h : k' ≠ k) : cacheGet (cacheSet c k v t) k' = cacheGet c k' := by
  simp only [cacheGet, cacheSet, List.find?]
  have : (k == k') = false := by simp [Ne.symm h]
  simp [this]

theorem cacheGetNat_set_same (c : Cache) (k : String) (n : Nat) (t : Option Nat) :
    cacheGetNat (cacheSet c k (.num n) t) k = some n := by
  simp [cacheGetNat, cacheGet_set_same]

theorem cacheGetNat_set_other (c : Cache) (k k' : String) (v : CacheVal) (t : Option Nat)
    (h : k' ≠ k) : cacheGetNat (cacheSet c k v t) k' = cacheGetNat c k' := by
  simp [cacheGetNat, cacheGet_set_other c k k' v t h]

theorem increment_version_eq_incrKey (c : Cache) (keyPre : String) (uid : Nat) :
    (increment_version c keyPre uid).1 = incrKey c (version_key keyPre uid) := rfl

theorem auto_invalidate_eq_foldIncr (db : DB) (c : Cache) (inst : ModelInstance) :
    auto_invalidate_cache db c inst = (invalidationKeys db inst).foldl incrKey c := by
  unfold auto_invalidate_cache invalidationKeys
  generalize get_related_users db inst = users
  induction users generalizing c with
  | nil => rfl
  | cons u us ih =>
    simp only [List.foldl_cons, List.flatMap_cons, List.foldl_append, List.foldl_map]
    exact ih _

/-- Effect of a fold of increments on one key: starting from a stored value
`v ≥ 1`, the final value is `v` plus the number of occurrences of the key in
the sequence. -/
theorem foldIncr_count (L : List String) :
    ∀ (c : Cache) (k : String) (v : Nat), 1 ≤ v → cacheGetNat c k = some v →
      cacheGetNat (L.foldl incrKey c) k = some (v + L.count k) := by
  induction L with
  | nil => intro c k v _ hv; simpa using hv
  | cons h t ih =>
    intro c k v h1 hv
    by_cases hk : h = k
    · subst hk
      have hget : cacheGet c h = some (.num v) := by
        simp only [cacheGetNat] at hv
        cases hc : cacheGet c h with
        | none => rw [hc] at hv; simp at hv
        | some val =>
          cases val with
          | num n => rw [hc] at hv; simp at hv; rw [hv]
          | data d => rw [hc] at hv; simp at hv
      have hstep : cacheGetNat (incrKey c h) h = some (v + 1) := by
        simp only [incrKey, hget]
        rw [if_neg (by omega : ¬ v = 0)]
        exact cacheGetNat_set_same c h (v + 1) none
      have := ih (incrKey c h) h (v + 1) (by omega) hstep
      simp only [List.foldl_cons]
      rw [this]
      have hcount : (h :: t).count h = t.count h + 1 := by
        simp [List.count_cons]
      rw [hcount]
      congr 1
      omega
    · have hstep : cacheGetNat (incrKey c h) k = cacheGetNat c k := by
        simp only [incrKey]
        exact cacheGetNat_set_other c h k _ none (fun he => hk he.symm)
      have := ih (incrKey c h) k v h1 (hstep.trans hv)
      simp only [List.foldl_cons]
      rw [this]
      have hcount : (h :: t).count k = t.count k := by
        simp [List.count_cons, hk]
      rw [hcount]

/-- Every user in the related-users list contributes its version key (for each
endpoint) to the invalidation sequence. -/
theorem version_key_mem_invalidationKeys (db : DB) (inst : ModelInstance)
    (uid : Nat) (keyPre : String) (hu : uid ∈ get_related_users db inst)
    (hp : keyPre ∈ listEndpoints) :
    version_key keyPre uid ∈ invalidationKeys db inst := by
  unfold invalidationKeys
  exact List.mem_flatMap.mpr ⟨uid, hu, List.mem_map.mpr ⟨keyPre, hp, rfl⟩⟩

theorem list_cache_key_ne_version_key (ck page : String) (uid uid' v : Nat) :
    list_cache_key ck uid page v ≠ ck ++ "_version_user_" ++ natStr uid' := by
  intro h
  have hd := congrArg String.data h
  simp only [list_cache_key, String.data_append, List.append_assoc] at hd
  have hrest := List.append_cancel_left hd
  simp at hrest

theorem list_cache_key_inj_version (ck page : String) (uid v v' : Nat)
    (h : list_cache_key ck uid page v = list_cache_key ck uid page v') : v = v' := by
  have hd := congrArg String.data h
  simp only [list_cache_key, String.data_append, List.append_assoc] at hd
  have h1 := List.append_cancel_left hd
  have h2 := List.append_cancel_left h1
  have h3 := List.append_cancel_left h2
  have h4 := List.append_cancel_left h3
  have h5 := List.append_cancel_left h4
  have h6 := List.append_cancel_left h5
  exact natStr_injective (String.ext h6)

theorem get_cache_key_version_present (view : ListView) (c : Cache) (req : ListRequest)
    (ck : String) (uid v : Nat)
    (hck : view.cache_key = some ck) (hu : req.user = some uid)
    (hv : cacheGetNat c (ck ++ "_version_user_" ++ natStr uid) = some v) (h0 : v ≠ 0) :
    get_cache_key view c req = (c, some (list_cache_key ck uid (req.page.getD "1") v)) := by
  simp only [get_cache_key, get_cache_version, hck, hu, hv]
  rw [if_neg h0]

theorem listAction_hit (live : DB → ListRequest → List Nat) (view : ListView) (db : DB)
    (c : Cache) (req : ListRequest) (ck : String) (uid v : Nat) (cached : CacheVal)
    (hck : view.cache_key = some ck) (hu : req.user = some uid)
    (hv : cacheGetNat c (ck ++ "_version_user_" ++ natStr uid) = some v) (h0 : v ≠ 0)
    (hhit : cacheGet c (list_cache_key ck uid (req.page.getD "1") v) = some cached) :
    listAction live view db c req = (c, cached) := by
  simp only [listAction, get_cache_key_version_present view c req ck uid v hck hu hv h0, hhit]

theorem listAction_miss (live : DB → ListRequest → List Nat) (view : ListView) (db : DB)
    (c : Cache) (req : ListRequest) (ck : String) (uid v : Nat)
    (hck : view.cache_key = some ck) (hu : req.user = some uid)
    (hv : cacheGetNat c (ck ++ "_version_user_" ++ natStr uid) = some v) (h0 : v ≠ 0)
    (hmiss : cacheGet c (list_cache_key ck uid (req.page.getD "1") v) = none) :
    listAction live view db c req =
      (cacheSet c (list_cache_key ck uid (req.page.getD "1") v) (.data (live db req)) (some 300),
       .data (live db req)) := by
  simp only [listAction, get_cache_key_version_present view c req ck uid v hck hu hv h0, hmiss]

/-- A second identical list request, with no intervening mutation, returns the
same response and leaves the cache unchanged. -/
theorem listAction_idem (live : DB → ListRequest → List Nat) (view : ListView) (db : DB)
    (c : Cache) (req : ListRequest) :
    listAction live view db (listAction live view db c req).1 req =
      listAction live view db c req := by
  rcases hck : view.cache_key with _ | ck
  · simp [listAction, get_cache_key, hck]
  rcases hu : req.user with _ | uid
  · simp [listAction, get_cache_key, hck, hu]
  rcases hv : cacheGetNat c (ck ++ "_version_user_" ++ natStr uid) with _ | n
  · -- version absent: the first request initializes it to 1
    have hstep : get_cache_key view c req =
        (cacheSet c (ck ++ "_version_user_" ++ natStr uid) (.num 1) none,
         some (list_cache_key ck uid (req.page.getD "1") 1)) := by
      simp only [get_cache_key, get_cache_version, hck, hu, hv]
    set c1 := cacheSet c (ck ++ "_version_user_" ++ natStr uid) (.num 1) none with hc1
    have hv1 : cacheGetNat c1 (ck ++ "_version_user_" ++ natStr uid) = some 1 :=
      cacheGetNat_set_same c _ 1 none
    rcases hhit : cacheGet c1 (list_cache_key ck uid (req.page.getD "1") 1) with _ | cached
    · -- miss: live result stored under the page key
      have h1 : listAction live view db c req =
          (cacheSet c1 (list_cache_key ck uid (req.page.getD "1") 1)
            (.data (live db req)) (some 300), .data (live db req)) := by
        simp only [listAction, hstep, hhit]
      rw [h1]
      have hv2 : cacheGetNat
          (cacheSet c1 (list_cache_key ck uid (req.page.getD "1") 1)
            (.data (live db req)) (some 300))
          (ck ++ "_version_user_" ++ natStr uid) = some 1 := by
        rw [cacheGetNat_set_other _ _ _ _ _
          (fun he => list_cache_key_ne_version_key ck (req.page.getD "1") uid uid 1 he.symm)]
        exact hv1
      have hhit2 : cacheGet
          (cacheSet c1 (list_cache_key ck uid (req.page.getD "1") 1)
            (.data (live db req)) (some 300))
          (list_cache_key ck uid (req.page.getD "1") 1) = some (.data (live db req)) :=
        cacheGet_set_same _ _ _ _
      exact listAction_hit live view db _ req ck uid 1 _ hck hu hv2 (by omega) hhit2
    · -- hit on the first request
      have h1 : listAction live view db c req = (c1, cached) := by
        simp only [listAction, hstep, hhit]
      rw [h1]
      exact listAction_hit live view db c1 req ck uid 1 cached hck hu hv1 (by omega) hhit
  rcases hn : decide (n = 0) with _ | _
  · -- version present and nonzero
    have hn' : n ≠ 0 := of_decide_eq_false hn
    rcases hhit : cacheGet c (list_cache_key ck uid (req.page.getD "1") n) with _ | cached
    · have h1 := listAction_miss live view db c req ck uid n hck hu hv hn' hhit
      rw [h1]
      have hv2 : cacheGetNat
          (cacheSet c (list_cache_key ck uid (req.page.getD "1") n)
            (.data (live db req)) (some 300))
          (ck ++ "_version_user_" ++ natStr uid) = some n := by
        rw [cacheGetNat_set_other _ _ _ _ _
          (fun he => list_cache_key_ne_version_key ck (req.page.getD "1") uid uid n he.symm)]
        exact hv
      exact listAction_hit live view db _ req ck uid n _ hck hu hv2 hn' (cacheGet_set_same _ _ _ _)
    · have h1 := listAction_hit live view db c req ck uid n cached hck hu hv hn' hhit
      rw [h1]
      exact listAction_hit live view db c req ck uid n cached hck hu hv hn' hhit
  · -- version present but zero (falsy): reset to 1, then as in the absent case
    have hn' : n = 0 := of_decide_eq_true hn
    subst hn'
    have hstep : get_cache_key view c req =
        (cacheSet c (ck ++ "_version_user_" ++ natStr uid) (.num 1) none,
         some (list_cache_key ck uid (req.page.getD "1") 1)) := by
      simp [get_cache_key, get_cache_version, hck, hu, hv]
    set c1 := cacheSet c (ck ++ "_version_user_" ++ natStr uid) (.num 1) none with hc1
    have hv1 : cacheGetNat c1 (ck ++ "_version_user_" ++ natStr uid) = some 1 :=
      cacheGetNat_set_same c _ 1 none
    rcases hhit : cacheGet c1 (list_cache_key ck uid (req.page.getD "1") 1) with _ | cached
    · have h1 : listAction live view db c req =
          (cacheSet c1 (list_cache_key ck uid (req.page.getD "1") 1)
            (.data (live db req)) (some 300), .data (live db req)) := by
        simp only [listAction, hstep, hhit]
      rw [h1]
      have hv2 : cacheGetNat
          (cacheSet c1 (list_cache_key ck uid (req.page.getD "1") 1)
            (.data (live db req)) (some 300))
          (ck ++ "_version_user_" ++ natStr uid) = some 1 := by
        rw [cacheGetNat_set_other _ _ _ _ _
          (fun he => list_cache_key_ne_version_key ck (req.page.getD "1") uid uid 1 he.symm)]
        exact hv1
      exact listAction_hit live view db _ req ck uid 1 _ hck hu hv2 (by omega)
        (cacheGet_set_same _ _ _ _)
    · have h1 : listAction live view db c req = (c1, cached) := by
        simp only [listAction, hstep, hhit]
      rw [h1]
      exact listAction_hit live view db c1 req ck uid 1 cached hck hu hv1 (by omega) hhit

/-! ### Claim theorems -/

/-- C10: the representation produced by `UserSerializer.to_representation`
contains no `password` key, and two users that differ only in their stored
password serialize to identical representations, so the password never flows
into an API response. -/
theorem user_representation_no_password :
    ∀ (u : UserRec) (pw : String),
      (∀ kv ∈ userToRepresentation u, kv.1 ≠ "password") ∧
      userToRepresentation { u with password := pw } = userToRepresentation u := by
  intro u pw
  constructor
  · intro kv hkv
    have hrep : userToRepresentation u =
        [("id", .jnum u.id),
         ("username", .jstr u.username),
         ("email", .jstr u.email),
         ("age", match u.age with | some a => .jnum a | none => .jnull),
         ("can_be_contacted", .jbool u.can_be_contacted),
         ("can_data_be_shared", .jbool u.can_data_be_shared)] := rfl
    rw [hrep] at hkv
    simp only [List.mem_cons, List.not_mem_nil, or_false] at hkv
    rcases hkv with h | h | h | h | h | h <;> (subst h; simp)
  · rfl

theorem user_representation_no_password_witness :
    (∀ kv ∈ userToRepresentation ⟨1, "alice", "a@b.c", some 20, true, false, "stored-hash"⟩,
      kv.1 ≠ "password") ∧
    userToRepresentation ⟨1, "alice", "a@b.c", some 20, true, false, "other-hash"⟩ =
      userToRepresentation ⟨1, "alice", "a@b.c", some 20, true, false, "stored-hash"⟩ :=
  user_representation_no_password
    ⟨1, "alice", "a@b.c", some 20, true, false, "stored-hash"⟩ "other-hash"

/-- C7: `ProjectSerializer.create` sets the author to the requesting user,
appends exactly one `Contributor` row whose user is that author and whose
project is the new project, and (the project id being fresh) that row is the
sole contributor row of the new project. -/
theorem projectSerializer_create_author_contributor
    (db : DB) (reqUser newPid newCid : Nat)
    (hfresh : ∀ c ∈ db.contributors, c.project ≠ newPid) :
    (projectSerializer_create db reqUser newPid newCid).2.author = reqUser ∧
    (projectSerializer_create db reqUser newPid newCid).1.contributors =
      db.contributors ++ [{ id := newCid, user := reqUser, project := newPid }] ∧
    ((projectSerializer_create db reqUser newPid newCid).1.contributors.filter
        (fun c => c.project == newPid)) =
      [{ id := newCid, user := reqUser, project := newPid }] := by
  refine ⟨rfl, rfl, ?_⟩
  show ((db.contributors ++
      [({ id := newCid, user := reqUser, project := newPid } : Contributor)]).filter
      (fun c => c.project == newPid)) =
    [({ id := newCid, user := reqUser, project := newPid } : Contributor)]
  rw [List.filter_append]
  have hnil : db.contributors.filter (fun c => c.project == newPid) = [] := by
    rw [List.filter_eq_nil_iff]
    intro c hc
    simpa using hfresh c hc
  rw [hnil]
  simp

theorem projectSerializer_create_author_contributor_witness :
    (projectSerializer_create ⟨[], [], [], []⟩ 7 1 1).2.author = 7 ∧
    (projectSerializer_create ⟨[], [], [], []⟩ 7 1 1).1.contributors =
      [] ++ [{ id := 1, user := 7, project := 1 }] ∧
    ((projectSerializer_create ⟨[], [], [], []⟩ 7 1 1).1.contributors.filter
        (fun c => c.project == 1)) = [{ id := 1, user := 7, project := 1 }] :=
  projectSerializer_create_author_contributor ⟨[], [], [], []⟩ 7 1 1 (by decide)

/-- C6: during project resolution, a failed lookup of a referenced object is
an ordinary deny: a missing `Contributor` in `IsProjectAuthor`'s destroy
branch, and a missing `Issue` in `IsContributor`'s create branch, both make
the check return `False` rather than fault. -/
theorem lookup_failure_denies (db : DB) (req : PermRequest) (view : ViewCtx) :
    (view.action = "destroy" → view.kwargs_pk.isSome = true →
      findContributor db (view.kwargs_pk.getD 0) = none →
      isProjectAuthor_has_permission db req view = false) ∧
    (SAFE_METHODS.contains req.method = false → view.action = "create" →
      truthyId req.data_project = false → truthyId req.data_issue = true →
      findIssue db (req.data_issue.getD 0) = none →
      isContributor_has_permission db req view = false) := by
  constructor
  · intro ha hpk hmiss
    simp [isProjectAuthor_has_permission, ha, hpk, hmiss]
  · intro hm ha hproj hiss hmiss
    rcases hd : req.data_issue with _ | iid
    · rw [hd] at hiss
      simp [truthyId] at hiss
    · rw [hd] at hiss hmiss
      simp only [Option.getD_some] at hmiss
      simp [isContributor_has_permission, hm, ha, hproj, hd, hiss, hmiss]
      intro hmem
      exact absurd hmem (by simpa using hm)

theorem lookup_failure_denies_witness :
    isProjectAuthor_has_permission ⟨[], [], [], []⟩ ⟨"DELETE", some 1, none, none⟩
      ⟨"destroy", some 5, none, none⟩ = false ∧
    isContributor_has_permission ⟨[], [], [], []⟩ ⟨"POST", some 1, none, some 9⟩
      ⟨"create", none, none, none⟩ = false :=
  ⟨(lookup_failure_denies ⟨[], [], [], []⟩ ⟨"DELETE", some 1, none, none⟩
      ⟨"destroy", some 5, none, none⟩).1 rfl rfl rfl,
   (lookup_failure_denies ⟨[], [], [], []⟩ ⟨"POST", some 1, none, some 9⟩
      ⟨"create", none, none, none⟩).2 rfl rfl rfl rfl rfl⟩

/-- C4: the policy wired into `UserViewSet` is `IsAuthenticated` alone, so —
contrary to the claim and to the unused `IsSelfOrCreateOnly` predicate — an
authenticated actor may act on another user's User object (object id 2 vs
actor id 1 below), and an unauthenticated actor is denied the create
action. -/
theorem userViewSet_policy_divergence :
    userViewSet_object_action_allowed
      { method := "PATCH", user := some 1, data_project := none, data_issue := none } 2 = true ∧
    isSelfOrCreateOnly_has_object_permission
      { method := "PATCH", user := some 1, data_project := none, data_issue := none } 2 = false ∧
    (1 : Nat) ≠ 2 ∧
    isAuthenticated { method := "POST", user := none, data_project := none, data_issue := none } =
      false ∧
    isSelfOrCreateOnly_has_permission
      { method := "POST", user := none, data_project := none, data_issue := none }
      { action := "create", kwargs_pk := none, kwargs_project_pk := none, obj := none } =
      true := by
  decide

/-- C9: `increment_version` is a plain get-then-set.  Two interleaved calls on
the same key (both reading version 1 before either writes) leave the counter
at 2, losing an increment: the final version fails the claimed bound
`before + number of mutations = 3`; the fully sequential schedule reaches 3. -/
theorem increment_version_lost_update :
    cacheGetNat
      (runTwo (version_key "projects_list" 10) [false, true, false, true]
        [⟨version_key "projects_list" 10, .num 1, none⟩] .ready .ready)
      (version_key "projects_list" 10) = some 2 ∧
    ¬ ((1 : Nat) + 2 ≤ 2) ∧
    cacheGetNat
      (runTwo (version_key "projects_list" 10) [false, false, true, true]
        [⟨version_key "projects_list" 10, .num 1, none⟩] .ready .ready)
      (version_key "projects_list" 10) = some 3 := by
  decide

/-- C1 (amended): `auto_invalidate_cache` increments an actor's per-endpoint
version counter once for each occurrence of that actor's key in the generated
invalidation sequence — one occurrence per appearance of the actor in
`get_related_users` per endpoint, so an actor listed twice (the author, who is
also a contributor) is incremented twice; every affected actor is incremented
at least once. -/
theorem auto_invalidate_version_increments
    (db : DB) (c : Cache) (inst : ModelInstance) (uid v : Nat) (keyPre : String)
    (hpre : keyPre ∈ listEndpoints)
    (hv : cacheGetNat c (version_key keyPre uid) = some v) (h1 : 1 ≤ v) :
    cacheGetNat (auto_invalidate_cache db c inst) (version_key keyPre uid) =
      some (v + (invalidationKeys db inst).count (version_key keyPre uid)) ∧
    (uid ∈ get_related_users db inst →
      v + 1 ≤ v + (invalidationKeys db inst).count (version_key keyPre uid)) := by
  constructor
  · rw [auto_invalidate_eq_foldIncr]
    exact foldIncr_count _ _ _ _ h1 hv
  · intro hu
    have hmem := version_key_mem_invalidationKeys db inst uid keyPre hu hpre
    have := List.count_pos_iff.mpr hmem
    omega

theorem auto_invalidate_version_increments_witness :
    cacheGetNat
      (auto_invalidate_cache dbW [⟨version_key "projects_list" 8, .num 1, none⟩]
        (.ofProject ⟨1, 7⟩))
      (version_key "projects_list" 8) = some 2 :=
  ((auto_invalidate_version_increments dbW [⟨version_key "projects_list" 8, .num 1, none⟩]
      (.ofProject ⟨1, 7⟩) 8 1 "projects_list" (by decide) (by decide) (by decide)).1).trans
    (by decide)

/-- C1 counterexample: in the standard state where the author also holds a
`Contributor` row, `get_related_users` lists the author twice, so one project
save increments the author's counter by two (1 to 3), not "by exactly one"
(which would give 2). -/
theorem auto_invalidate_exactly_one_cex :
    get_related_users ⟨[⟨1, 10⟩], [⟨1, 10, 1⟩], [], []⟩ (.ofProject ⟨1, 10⟩) = [10, 10] ∧
    cacheGetNat
      (auto_invalidate_cache ⟨[⟨1, 10⟩], [⟨1, 10, 1⟩], [], []⟩
        [⟨version_key "projects_list" 10, .num 1, none⟩] (.ofProject ⟨1, 10⟩))
      (version_key "projects_list" 10) = some 3 ∧
    (some (3 : Nat) ≠ some (1 + 1)) := by
  decide

/-- C3 (amended): the object-level check of `IsContributor` re-derives the
owning project from the object's concrete type; for non-safe methods it
requires the actor to be that project's author; for safe methods it requires a
`Contributor` row for the actor and that project — membership only, with no
author disjunct (the author passes only through their implicit contributor
row). -/
theorem isContributor_object_level_policy
    (db : DB) (req : PermRequest) (obj : ModelInstance) (p : Project)
    (hp : get_project_from_obj db obj = some p) :
    (SAFE_METHODS.contains req.method = false →
      (isContributor_has_object_permission db req obj = true ↔ req.user = some p.author)) ∧
    (SAFE_METHODS.contains req.method = true →
      (isContributor_has_object_permission db req obj = true ↔
        ∃ c ∈ db.contributors, some c.user = req.user ∧ c.project = p.id)) := by
  constructor
  · intro hm
    simp only [isContributor_has_object_permission, hp, hm, Bool.not_false, if_true]
    rw [beq_iff_eq]
    exact eq_comm
  · intro hm
    simp only [isContributor_has_object_permission, hp, hm, Bool.not_true,
      Bool.false_eq_true, if_false]
    simp only [List.any_eq_true, Bool.and_eq_true, beq_iff_eq]

theorem isContributor_object_level_policy_witness :
    isContributor_has_object_permission ⟨[⟨1, 10⟩], [⟨1, 20, 1⟩], [], []⟩
      ⟨"GET", some 20, none, none⟩ (.ofProject ⟨1, 10⟩) = true ∧
    isContributor_has_object_permission ⟨[⟨1, 10⟩], [⟨1, 20, 1⟩], [], []⟩
      ⟨"DELETE", some 10, none, none⟩ (.ofProject ⟨1, 10⟩) = true :=
  ⟨((isContributor_object_level_policy ⟨[⟨1, 10⟩], [⟨1, 20, 1⟩], [], []⟩
      ⟨"GET", some 20, none, none⟩ (.ofProject ⟨1, 10⟩) ⟨1, 10⟩ rfl).2 rfl).mpr
      ⟨⟨1, 20, 1⟩, by decide, by decide, by decide⟩,
   ((isContributor_object_level_policy ⟨[⟨1, 10⟩], [⟨1, 20, 1⟩], [], []⟩
      ⟨"DELETE", some 10, none, none⟩ (.ofProject ⟨1, 10⟩) ⟨1, 10⟩ rfl).1 rfl).mpr rfl⟩

/-- C3 counterexample: actor 10 is the project's author yet holds no
`Contributor` row; a safe-method object-level check denies, though the claimed
membership test ("Contributor of that project or its author") would allow. -/
theorem isContributor_object_safe_author_cex :
    isContributor_has_object_permission ⟨[⟨1, 10⟩], [], [], []⟩
      ⟨"GET", some 10, none, none⟩ (.ofProject ⟨1, 10⟩) = false ∧
    (⟨1, 10⟩ : Project).author = 10 ∧
    get_project_from_obj ⟨[⟨1, 10⟩], [], [], []⟩ (.ofProject ⟨1, 10⟩) = some ⟨1, 10⟩ := by
  decide

/-- C5 (amended): the two predicates resolve the target project from distinct
source chains.  `IsContributor` (create) consults the body's `project` field
first, falls back to the referenced `issue`, never reads a path parameter, and
denies when neither resolves.  `IsProjectAuthor` consults the body's `project`
field first, then the `project_pk` and `pk` path parameters, never an issue,
and denies when none is truthy. -/
theorem project_reference_resolution
    (db : DB) (req : PermRequest) (view : ViewCtx) (i : Issue) :
    (SAFE_METHODS.contains req.method = false → view.action = "create" →
      truthyId req.data_project = true →
      isContributor_has_permission db req view =
        contributorOrAuthorExists db req.data_project req.user) ∧
    (SAFE_METHODS.contains req.method = false → view.action = "create" →
      truthyId req.data_project = false → truthyId req.data_issue = true →
      findIssue db (req.data_issue.getD 0) = some i →
      isContributor_has_permission db req view =
        contributorOrAuthorExists db (some i.project) req.user) ∧
    (SAFE_METHODS.contains req.method = false → view.action = "create" →
      truthyId req.data_project = false → truthyId req.data_issue = false →
      isContributor_has_permission db req view = false) ∧
    (view.action = "create" → truthyId req.data_project = true →
      isProjectAuthor_has_permission db req view =
        db.projects.any (fun p => some p.id == req.data_project && some p.author == req.user)) ∧
    (view.action = "create" → truthyId req.data_project = false →
      truthyId view.kwargs_project_pk = true →
      isProjectAuthor_has_permission db req view =
        db.projects.any (fun p =>
          some p.id == view.kwargs_project_pk && some p.author == req.user)) ∧
    (view.action = "create" → truthyId req.data_project = false →
      truthyId view.kwargs_project_pk = false → truthyId view.kwargs_pk = true →
      isProjectAuthor_has_permission db req view =
        db.projects.any (fun p => some p.id == view.kwargs_pk && some p.author == req.user)) ∧
    (view.action = "create" → truthyId req.data_project = false →
      truthyId view.kwargs_project_pk = false → truthyId view.kwargs_pk = false →
      isProjectAuthor_has_permission db req view = false) := by
  refine ⟨?_, ?_, ?_, ?_, ?_, ?_, ?_⟩
  · intro hm ha hproj
    simp [isContributor_has_permission, hm, ha, hproj]
    intro hmem
    exact absurd hmem (by simpa using hm)
  · intro hm ha hproj hiss hfound
    rcases hd : req.data_issue with _ | iid
    · rw [hd] at hiss
      simp [truthyId] at hiss
    · rw [hd] at hiss hfound
      simp only [Option.getD_some] at hfound
      simp [isContributor_has_permission, hm, ha, hproj, hd, hiss, hfound]
      intro hmem
      exact absurd hmem (by simpa using hm)
  · intro hm ha hproj hiss
    simp [isContributor_has_permission, hm, ha, hproj, hiss]
    intro hmem
    exact absurd hmem (by simpa using hm)
  · intro ha hproj
    simp [isProjectAuthor_has_permission, ha, pyOrId, hproj]
  · intro ha hproj hkpp
    simp [isProjectAuthor_has_permission, ha, pyOrId, hproj, hkpp]
  · intro ha hproj hkpp hkpk
    simp [isProjectAuthor_has_permission, ha, pyOrId, hproj, hkpp, hkpk]
  · intro ha hproj hkpp hkpk
    simp [isProjectAuthor_has_permission, ha, pyOrId, hproj, hkpp, hkpk]

theorem project_reference_resolution_witness :
    isContributor_has_permission ⟨[⟨1, 10⟩], [⟨1, 20, 1⟩], [⟨5, 1, 10⟩], []⟩
      ⟨"POST", some 20, none, some 5⟩ ⟨"create", none, none, none⟩ = true ∧
    isProjectAuthor_has_permission ⟨[⟨1, 10⟩], [⟨1, 20, 1⟩], [⟨5, 1, 10⟩], []⟩
      ⟨"POST", some 10, none, none⟩ ⟨"create", none, some 1, none⟩ = true ∧
    isProjectAuthor_has_permission ⟨[⟨1, 10⟩], [⟨1, 20, 1⟩], [⟨5, 1, 10⟩], []⟩
      ⟨"POST", some 10, none, none⟩ ⟨"create", some 1, none, none⟩ = true :=
  ⟨((project_reference_resolution ⟨[⟨1, 10⟩], [⟨1, 20, 1⟩], [⟨5, 1, 10⟩], []⟩
      ⟨"POST", some 20, none, some 5⟩ ⟨"create", none, none, none⟩ ⟨5, 1, 10⟩).2.1
    rfl rfl rfl rfl (by decide)).trans (by decide),
   ((project_reference_resolution ⟨[⟨1, 10⟩], [⟨1, 20, 1⟩], [⟨5, 1, 10⟩], []⟩
      ⟨"POST", some 10, none, none⟩ ⟨"create", none, some 1, none⟩ ⟨5, 1, 10⟩).2.2.2.2.1
    rfl rfl (by decide)).trans (by decide),
   ((project_reference_resolution ⟨[⟨1, 10⟩], [⟨1, 20, 1⟩], [⟨5, 1, 10⟩], []⟩
      ⟨"POST", some 10, none, none⟩ ⟨"create", some 1, none, none⟩ ⟨5, 1, 10⟩).2.2.2.2.2.1
    rfl rfl rfl (by decide)).trans (by decide)⟩

/-- C5 counterexample: on a create request carrying only a `pk` path
parameter, `IsContributor` denies outright, although the claimed resolution
chain would fall back to the path parameter, resolve project 1, and pass the
membership test (actor 20 being a contributor of project 1). -/
theorem resolution_path_param_cex :
    isContributor_has_permission ⟨[⟨1, 10⟩], [⟨1, 20, 1⟩], [], []⟩
      ⟨"POST", some 20, none, none⟩ ⟨"create", some 1, none, none⟩ = false ∧
    contributorOrAuthorExists ⟨[⟨1, 10⟩], [⟨1, 20, 1⟩], [], []⟩ (some 1) (some 20) = true ∧
    (⟨"create", some 1, none, none⟩ : ViewCtx).kwargs_pk = some 1 := by
  decide

/-- C2: a second identical list request before any mutation returns the same
response and leaves the cache unchanged; a mutation affecting a project the
actor belongs to makes the version counter strictly greater; the key built
under any strictly larger version differs from the old key, so the stored
entry is no longer consulted, and the next request (its fresh key absent from
the cache) recomputes the live result and stores it. -/
theorem cache_roundtrip_and_invalidation
    (live : DB → ListRequest → List Nat) (view : ListView) (db : DB) (c : Cache)
    (req : ListRequest) (inst : ModelInstance) (ck : String) (uid v : Nat)
    (hck : view.cache_key = some ck) (hu : req.user = some uid)
    (hpre : ck ∈ listEndpoints) (hv : cacheGetNat c (version_key ck uid) = some v)
    (h1 : 1 ≤ v) (hmem : uid ∈ get_related_users db inst) :
    (listAction live view db (listAction live view db c req).1 req =
      listAction live view db c req) ∧
    (∃ v', cacheGetNat (auto_invalidate_cache db c inst) (version_key ck uid) = some v' ∧
      v < v') ∧
    (∀ (page : String) (v' : Nat), v < v' →
      list_cache_key ck uid page v' ≠ list_cache_key ck uid page v) ∧
    (∀ (c2 : Cache) (v' : Nat),
      cacheGetNat c2 (version_key ck uid) = some v' → v' ≠ 0 →
      cacheGet c2 (list_cache_key ck uid (req.page.getD "1") v') = none →
      listAction live view db c2 req =
        (cacheSet c2 (list_cache_key ck uid (req.page.getD "1") v')
          (.data (live db req)) (some 300), .data (live db req))) := by
  refine ⟨listAction_idem live view db c req, ?_, ?_, ?_⟩
  · refine ⟨v + (invalidationKeys db inst).count (version_key ck uid), ?_, ?_⟩
    · rw [auto_invalidate_eq_foldIncr]
      exact foldIncr_count _ _ _ _ h1 hv
    · have := List.count_pos_iff.mpr (version_key_mem_invalidationKeys db inst uid ck hmem hpre)
      omega
  · intro page v' hlt he
    exact absurd (list_cache_key_inj_version ck page uid v' v he) (by omega)
  · intro c2 v' hv2 h0 hfresh
    exact listAction_miss live view db c2 req ck uid v' hck hu hv2 h0 hfresh

theorem cache_roundtrip_and_invalidation_witness :
    (listAction liveW viewW dbW (listAction liveW viewW dbW cW reqW).1 reqW =
      listAction liveW viewW dbW cW reqW) ∧
    (∃ v', cacheGetNat (auto_invalidate_cache dbW cW (.ofIssue ⟨5, 1, 8⟩))
        (version_key "projects_list" 7) = some v' ∧ 1 < v') :=
  ⟨(cache_roundtrip_and_invalidation liveW viewW dbW cW reqW (.ofIssue ⟨5, 1, 8⟩)
      "projects_list" 7 1 rfl rfl (by decide) (by decide) (by decide) (by decide)).1,
   (cache_roundtrip_and_invalidation liveW viewW dbW cW reqW (.ofIssue ⟨5, 1, 8⟩)
      "projects_list" 7 1 rfl rfl (by decide) (by decide) (by decide) (by decide)).2.1⟩

/-- C8: for an authenticated list request the cache key is
`{cache_key}_user_{actor}_page_{page}_v{version}` (and building it does not
change the cache when the version is present); a hit returns the stored value
verbatim with the cache untouched; a miss runs the live query, stores its
payload under that key with a 300-second time-to-live, and returns it. -/
theorem cache_key_format_hit_miss
    (live : DB → ListRequest → List Nat) (view : ListView) (db : DB) (c : Cache)
    (req : ListRequest) (ck : String) (uid v : Nat)
    (hck : view.cache_key = some ck) (hu : req.user = some uid)
    (hv : cacheGetNat c (version_key ck uid) = some v) (h0 : v ≠ 0) :
    get_cache_key view c req =
      (c, some (ck ++ "_user_" ++ natStr uid ++ "_page_" ++ req.page.getD "1" ++
        "_v" ++ natStr v)) ∧
    (∀ cached, cacheGet c (list_cache_key ck uid (req.page.getD "1") v) = some cached →
      listAction live view db c req = (c, cached)) ∧
    (cacheGet c (list_cache_key ck uid (req.page.getD "1") v) = none →
      listAction live view db c req =
        ({ key := list_cache_key ck uid (req.page.getD "1") v,
           val := .data (live db req), ttl := some 300 } :: c,
         .data (live db req))) := by
  refine ⟨?_, ?_, ?_⟩
  · exact get_cache_key_version_present view c req ck uid v hck hu hv h0
  · intro cached hhit
    exact listAction_hit live view db c req ck uid v cached hck hu hv h0 hhit
  · intro hmiss
    exact listAction_miss live view db c req ck uid v hck hu hv h0 hmiss

theorem cache_key_format_hit_miss_witness :
    get_cache_key viewW cW reqW = (cW, some "projects_list_user_7_page_1_v1") ∧
    listAction liveW viewW dbW cW reqW =
      (⟨"projects_list_user_7_page_1_v1", .data [1, 2, 3], some 300⟩ :: cW,
       .data [1, 2, 3]) :=
  ⟨(cache_key_format_hit_miss liveW viewW dbW cW reqW "projects_list" 7 1
      rfl rfl (by decide) (by decide)).1.trans (by decide),
   ((cache_key_format_hit_miss liveW viewW dbW cW reqW "projects_list" 7 1
      rfl rfl (by decide) (by decide)).2.2 (by decide)).trans (by decide)⟩

end SoftDesk
